import Mathlib

/-!
Verification of the daily-summary aggregate extraction and wind-rose binning
engine of the weewx-highcharts repository.

The development shallowly embeds the relevant source code:

* the per-record aggregate derivation of `getDaySummaryVectors`
  (bin/user/highcharts.py, lines 108-138) and of
  `HighchartsDaySummarySearchList.get_day_summary_vectors`
  (bin/user/highchartssearchlist.py, lines 171-201);
* the wind-rose binning computation of
  `HighchartsWindRose.calc_windrose` (bin/user/highchartssearchlist.py,
  lines 906-1141; the same computation appears as `calcWindRose` in
  bin/user/highchartsSearchX.py);
* the calendar helper `get_ago` (bin/user/highchartssearchlist.py,
  lines 1270-1284, identical in bin/user/highchartsSearchX.py).

Python floats are modelled as real numbers (for the aggregator, which uses
`math.sqrt`/`math.atan2`) or as rationals (for the wind-rose binner, which
uses only field and order operations, truncation and rounding).  Fallible
operations (Python exceptions) are modelled with `Option`.
-/

namespace WeewxHighcharts

/-- Python `int()` applied to a rational: truncation toward zero. -/
def pytrunc (q : ℚ) : ℤ := if 0 ≤ q then ⌊q⌋ else ⌈q⌉

/-- Round a rational to the nearest integer, ties going to the even integer.
This is the rounding mode of Python 3's built-in `round`. -/
def roundHalfEven (q : ℚ) : ℤ :=
  if q - ⌊q⌋ < 1/2 then ⌊q⌋
  else if 1/2 < q - ⌊q⌋ then ⌊q⌋ + 1
  else if Even ⌊q⌋ then ⌊q⌋ else ⌊q⌋ + 1

/-- Python `round(x, p)` for a non-negative number of places `p`:
round `x` to `p` decimal places, ties to even. -/
def pyround (x : ℚ) (p : ℕ) : ℚ := (roundHalfEven (x * 10 ^ p) : ℚ) / 10 ^ p

/-- Python `a / b` on numbers, which raises `ZeroDivisionError` when `b = 0`;
the failure is modelled by `none`. -/
def pydiv (a b : ℚ) : Option ℚ := if b = 0 then none else some (a / b)

/-- `math.atan2 y x` of the Python standard library (C99 semantics on finite
inputs; the signed-zero cases collapse because `ℝ` has a single zero):
the angle in `(-π, π]` of the point `(x, y)`. -/
noncomputable def atan2 (y x : ℝ) : ℝ :=
  if 0 < x then Real.arctan (y / x)
  else if x < 0 ∧ 0 ≤ y then Real.arctan (y / x) + Real.pi
  else if x < 0 ∧ y < 0 then Real.arctan (y / x) - Real.pi
  else if x = 0 ∧ 0 < y then Real.pi / 2
  else if x = 0 ∧ y < 0 then -(Real.pi / 2)
  else 0

/-- One row of a daily-summary table (`archive_day_<obs>`), in the vector
(wind) layout used by both aggregate readers.  Fields follow the SQL result
columns documented in the source:
`[0]=dateTime [1]=min [2]=mintime [3]=max [4]=maxtime [5]=sum [6]=count
[7]=wsum [8]=sumtime [9]=max_dir [10]=xsum [11]=ysum [12]=dirsumtime
[13]=squaresum [14]=wsquaresum`.
`min`, `mintime`, `max`, `maxtime` and `max_dir` are nullable in the weewx
schema; the remaining statistics columns are not. -/
structure DayRec where
  dateTime : ℤ
  min : Option ℝ
  mintime : Option ℤ
  max : Option ℝ
  maxtime : Option ℤ
  sum : ℝ
  count : ℤ
  wsum : ℝ
  sumtime : ℝ
  max_dir : Option ℝ
  xsum : ℝ
  ysum : ℝ
  dirsumtime : ℝ
  squaresum : ℝ
  wsquaresum : ℝ

/-- The aggregate kinds dispatched on by both implementations.  The source
dispatches on strings with a catch-all `else` returning `None`; `unknown`
stands for any string outside the recognized set. -/
inductive AggKind where
  | min | max | mintime | maxtime | gustdir | sum | count
  | avg | rms | vecavg | vecdir | unknown
deriving DecidableEq

/-- Per-record aggregate derivation of `getDaySummaryVectors`
(bin/user/highcharts.py, lines 108-138).  Each arm is the transcription of
the corresponding `elif` branch of the loop body; Python truthiness of a
number is `≠ 0`, of `None` is false. -/
noncomputable def aggValue (agg : AggKind) (rec : DayRec) : Option ℝ :=
  match agg with
  | AggKind.min => rec.min
  | AggKind.max => rec.max
  | AggKind.sum => some rec.sum
  | AggKind.gustdir => rec.max_dir
  | AggKind.mintime =>
      match rec.mintime with
      | none => none
      | some t => if t = 0 then none else some (t : ℝ)
  | AggKind.maxtime =>
      match rec.maxtime with
      | none => none
      | some t => if t = 0 then none else some (t : ℝ)
  | AggKind.count => if rec.count = 0 then none else some (rec.count : ℝ)
  | AggKind.avg =>
      if rec.count ≠ 0 then some (rec.wsum / rec.sumtime) else none
  | AggKind.rms =>
      if rec.count ≠ 0 then some (Real.sqrt (rec.wsquaresum / rec.sumtime)) else none
  | AggKind.vecavg =>
      if rec.count ≠ 0 then
        some (Real.sqrt ((rec.xsum ^ 2 + rec.ysum ^ 2) / rec.sumtime ^ 2))
      else none
  | AggKind.vecdir =>
      if rec.xsum = 0 ∧ rec.ysum = 0 then none
      else if rec.xsum ≠ 0 ∧ rec.ysum ≠ 0 then
        some (let deg := 90 - (atan2 rec.ysum rec.xsum) * (180 / Real.pi)
              if 0 ≤ deg then deg else deg + 360)
      else none
  | AggKind.unknown => none

/-- Per-record aggregate derivation of
`HighchartsDaySummarySearchList.get_day_summary_vectors`
(bin/user/highchartssearchlist.py, lines 171-201), transcribed
independently from that file. -/
noncomputable def aggValueSL (agg : AggKind) (rec : DayRec) : Option ℝ :=
  match agg with
  | AggKind.min => rec.min
  | AggKind.max => rec.max
  | AggKind.sum => some rec.sum
  | AggKind.gustdir => rec.max_dir
  | AggKind.mintime =>
      match rec.mintime with
      | none => none
      | some t => if t = 0 then none else some (t : ℝ)
  | AggKind.maxtime =>
      match rec.maxtime with
      | none => none
      | some t => if t = 0 then none else some (t : ℝ)
  | AggKind.count => if rec.count = 0 then none else some (rec.count : ℝ)
  | AggKind.avg =>
      if rec.count ≠ 0 then some (rec.wsum / rec.sumtime) else none
  | AggKind.rms =>
      if rec.count ≠ 0 then some (Real.sqrt (rec.wsquaresum / rec.sumtime)) else none
  | AggKind.vecavg =>
      if rec.count ≠ 0 then
        some (Real.sqrt ((rec.xsum ^ 2 + rec.ysum ^ 2) / rec.sumtime ^ 2))
      else none
  | AggKind.vecdir =>
      if rec.xsum = 0 ∧ rec.ysum = 0 then none
      else if rec.xsum ≠ 0 ∧ rec.ysum ≠ 0 then
        some (let deg := 90 - (atan2 rec.ysum rec.xsum) * (180 / Real.pi)
              if 0 ≤ deg then deg else deg + 360)
      else none
  | AggKind.unknown => none

/-- `calendar.isleap` of the Python standard library. -/
def isLeap (y : ℤ) : Bool := y % 4 == 0 && (y % 100 != 0 || y % 400 == 0)

/-- Number of days of month `m` (1-12) of year `y`, as returned in
`calendar.monthrange(y, m)[1]`. -/
def monthLength (y m : ℤ) : ℤ :=
  if m = 1 then 31
  else if m = 2 then (if isLeap y then 29 else 28)
  else if m = 3 then 31
  else if m = 4 then 30
  else if m = 5 then 31
  else if m = 6 then 30
  else if m = 7 then 31
  else if m = 8 then 31
  else if m = 9 then 30
  else if m = 10 then 31
  else if m = 11 then 30
  else if m = 12 then 31
  else 0

/-- `get_ago(dt, d_years, d_months)` (bin/user/highchartssearchlist.py,
lines 1270-1284): the date `d_years`/`d_months` away from `dt = (y, m, d)`,
with the day clamped to the end of the target month when it does not exist
there.  Python `divmod` is floored division, i.e. `Int.ediv`/`Int.emod` for
the positive modulus 12. -/
def get_ago (dt : ℤ × ℤ × ℤ) (dYears dMonths : ℤ) : ℤ × ℤ × ℤ :=
  let y := dt.1 + dYears
  let m := dt.2.1 + dMonths
  let a := (m - 1) / 12
  let m2 := (m - 1) % 12 + 1
  let eom := monthLength (y + a) m2
  (y + a, m2, if dt.2.2 ≤ eom then dt.2.2 else eom)

/-- One wind sample handed to the binning loop of `calc_windrose`: the pair
of `speed_vec_vt.value[i]` and `direction_vec_vt.value[i]` (the source
iterates the two parallel vectors by a shared index; `none` is Python
`None`). -/
abbrev Sample := Option ℚ × Option ℚ

/-- `max([v for v in speed_vec_vt.value if v is not None])` with the
`ValueError` fallback to `10` when there is no non-`None` value
(bin/user/highchartssearchlist.py, lines 951-955). -/
def maxSpeed (speeds : List (Option ℚ)) : ℚ :=
  match speeds.filterMap id with
  | [] => 10
  | v :: vs => vs.foldl max v

/-- `max_speed_range = (int(max_speed/10.0) + 1) * 10`. -/
def maxSpeedRange (speeds : List (Option ℚ)) : ℚ :=
  ((pytrunc (maxSpeed speeds / 10) + 1 : ℤ) : ℚ) * 10

/-- The `speed_list` cutoffs: entry 0 keeps its initial value `0`, entries
1-6 are `speedfactor[i] * max_speed_range`. -/
def speedList (speedfactor : Fin 7 → ℚ) (msr : ℚ) : Fin 7 → ℚ :=
  fun i => if i.val = 0 then 0 else speedfactor i * msr

/-- `bin_num = int((direction+11.25)/22.5) % petals`: the compass sector of
a direction.  Python `%` on integers is floored modulus, i.e. `Int.emod`
for a positive modulus. -/
def sectorOf (petals : ℕ) (d : ℚ) : ℕ :=
  ((pytrunc ((d + 11.25) / 22.5)) % (petals : ℤ)).toNat

/-- The classification of one sample by the binning loop
(bin/user/highchartssearchlist.py, lines 999-1020): `none` means the sample
is counted in `speed_bin[0]` (calm); `some (b, s)` means `wind_bin[b][s]`
is incremented.  The guard chain is transcribed branch for branch. -/
def classify (calmLimit : ℚ) (sl : Fin 7 → ℚ) (petals : ℕ)
    (sample : Sample) : Option (ℕ × ℕ) :=
  match sample with
  | (none, _) => none
  | (some _, none) => none
  | (some sp, some d) =>
      let binNum := sectorOf petals d
      if sp ≤ calmLimit then none
      else if sl 5 < sp then some (6, binNum)
      else if sl 4 < sp then some (5, binNum)
      else if sl 3 < sp then some (4, binNum)
      else if sl 2 < sp then some (3, binNum)
      else if sl 1 < sp then some (2, binNum)
      else if 0 < sp then some (1, binNum)
      else some (0, binNum)

/-- Value of `wind_bin[band][sector]` at the end of the binning loop: the
number of samples classified into that cell. -/
def windBinCount (calmLimit : ℚ) (sl : Fin 7 → ℚ) (petals : ℕ)
    (samples : List Sample) (band sector : ℕ) : ℕ :=
  samples.countP (fun x => decide (classify calmLimit sl petals x = some (band, sector)))

/-- Value of `speed_bin[0]` at the end of the binning loop: the number of
samples counted as calm. -/
def calmCount (calmLimit : ℚ) (sl : Fin 7 → ℚ) (petals : ℕ)
    (samples : List Sample) : ℕ :=
  samples.countP (fun x => decide (classify calmLimit sl petals x = none))

/-- `pcent_factor = 100.0/samples` with the division embedded as it stands
in the source (line 992); the zero-denominator case is the subject of the
division-guard claim and is modelled separately by `pcentFactorChecked`. -/
def pcentFactor (samples : List Sample) : ℚ := 100 / (samples.length : ℚ)

/-- The percentage-factor computation `100.0/samples` with Python's
`ZeroDivisionError` made explicit: the source has no guard, so the
computation only succeeds when the sample count is non-zero. -/
def pcentFactorChecked (samples : List Sample) : Option ℚ :=
  pydiv 100 (samples.length : ℚ)

/-- `wind_bin[band][sector]` after the conversion loop (lines 1026-1032):
`round(pcent_factor * wind_bin[band][sector], precision)`. -/
def roundedBin (calmLimit : ℚ) (sl : Fin 7 → ℚ) (petals p : ℕ)
    (samples : List Sample) (band sector : ℕ) : ℚ :=
  pyround (pcentFactor samples * (windBinCount calmLimit sl petals samples band sector : ℚ)) p

/-- `speed_bin[0]` after the per-band accumulation loop (lines 1050-1056):
the calm count plus the (already percentage-valued) row 0 of `wind_bin`. -/
def speedBinZero (calmLimit : ℚ) (sl : Fin 7 → ℚ) (petals p : ℕ)
    (samples : List Sample) : ℚ :=
  (calmCount calmLimit sl petals samples : ℚ) +
    (Finset.range petals).sum (fun s => roundedBin calmLimit sl petals p samples 0 s)

/-- `speed_bin[j]` for `1 ≤ j` after the per-band accumulation loop: the sum
over all sectors of the (already percentage-valued) row `j` of `wind_bin`. -/
def speedBinBand (calmLimit : ℚ) (sl : Fin 7 → ℚ) (petals p : ℕ)
    (samples : List Sample) (band : ℕ) : ℚ :=
  (Finset.range petals).sum (fun s => roundedBin calmLimit sl petals p samples band s)

/-- The calm percentage shown in the legend and the bullseye text:
`round(speed_bin[0] * pcent_factor, precision)` (line 1059). -/
def calmPercent (calmLimit : ℚ) (sl : Fin 7 → ℚ) (petals p : ℕ)
    (samples : List Sample) : ℚ :=
  pyround (speedBinZero calmLimit sl petals p samples * pcentFactor samples) p

/-- The percentage figure placed in the legend label of speed band
`band ∈ 1..6` when `show_band_percent` is set:
`round(speed_bin[band] * pcent_factor, precision)` (lines 1070-1079). -/
def legendBandPercent (calmLimit : ℚ) (sl : Fin 7 → ℚ) (petals p : ℕ)
    (samples : List Sample) (band : ℕ) : ℚ :=
  pyround (speedBinBand calmLimit sl petals p samples band * pcentFactor samples) p

/-- `dir_bin[sector]` after the conversion loop: the raw sample count of a
sector accumulated over all seven bands (the accumulation happens before
each cell is overwritten with its percentage). -/
def dirBinCount (calmLimit : ℚ) (sl : Fin 7 → ℚ) (petals : ℕ)
    (samples : List Sample) (sector : ℕ) : ℕ :=
  (Finset.range 7).sum (fun b => windBinCount calmLimit sl petals samples b sector)

/-- `max(dir_bin)`: the largest sector count.  `dir_bin` entries are
naturals, so folding `max` from `0` agrees with Python's `max` on the
non-empty list. -/
def maxDirBin (calmLimit : ℚ) (sl : Fin 7 → ℚ) (petals : ℕ)
    (samples : List Sample) : ℕ :=
  ((List.range petals).map (dirBinCount calmLimit sl petals samples)).foldl max 0

/-- `max_dir_percent = round(pcent_factor * max(dir_bin), precision)`
(line 1041). -/
def maxDirPercent (calmLimit : ℚ) (sl : Fin 7 → ℚ) (petals p : ℕ)
    (samples : List Sample) : ℚ :=
  pyround (pcentFactor samples * (maxDirBin calmLimit sl petals samples : ℚ)) p

/-- `max_y_axis = 10.0 * (1 + int(max_dir_percent/10.0))` (line 1043). -/
def maxYAxis (mdp : ℚ) : ℚ := 10 * (1 + (pytrunc (mdp / 10) : ℚ))

/-- The default `speedfactor` configuration
`[0.0, 0.1, 0.2, 0.3, 0.5, 0.7, 1.0]`. -/
def defaultSpeedfactor : Fin 7 → ℚ :=
  fun i => [0, 1/10, 2/10, 3/10, 1/2, 7/10, 1].getD i.val 0

/-- A concrete day-summary row with unit x-component sum and zero
y-component sum (all other statistics zero, ten samples). -/
def recEast : DayRec :=
  ⟨0, none, none, none, none, 0, 10, 0, 0, none, 1, 0, 0, 0, 0⟩

/-- Claim C10: for every day-summary record and every aggregate kind
(including the unrecognized catch-all), the per-record aggregate derivation
of `getDaySummaryVectors` (highcharts.py) and the one of
`get_day_summary_vectors` (highchartssearchlist.py) produce identical
values. -/
theorem agg_implementations_equal :
    ∀ (agg : AggKind) (rec : DayRec), aggValue agg rec = aggValueSL agg rec := by
  intro agg rec
  cases agg <;> rfl

/-- Claim C6: the percentage-factor computation `100.0/samples` of
`calc_windrose` has no guard against an empty sample set; it succeeds
exactly when the sample count is strictly positive. -/
theorem pcent_factor_total (samples : List Sample) :
    (pcentFactorChecked samples).isSome ↔ 0 < samples.length := by
  simp only [pcentFactorChecked, pydiv, Nat.cast_eq_zero]
  by_cases h : samples.length = 0
  · simp [h]
  · simp [h, Nat.pos_of_ne_zero h]

/-- Claim C4: for every day-summary row the `avg` aggregate equals
`wsum / sumtime` when `count > 0` and is null when `count = 0`; for a row
with `sum = 50`, `wsum = 500`, `sumtime = 50`, `count = 10` it equals
exactly `10`. -/
theorem avg_agg_spec :
    (∀ rec : DayRec, 0 < rec.count →
        aggValue AggKind.avg rec = some (rec.wsum / rec.sumtime)) ∧
    (∀ rec : DayRec, rec.count = 0 → aggValue AggKind.avg rec = none) ∧
    (∀ rec : DayRec, rec.sum = 50 → rec.wsum = 500 → rec.sumtime = 50 →
        rec.count = 10 → aggValue AggKind.avg rec = some 10) := by
  refine ⟨?_, ?_, ?_⟩
  · intro rec hc
    simp only [aggValue]
    rw [if_pos (by omega)]
  · intro rec hc
    simp only [aggValue]
    rw [if_neg (by omega)]
  · intro rec _ hw ht hc
    simp only [aggValue]
    rw [if_pos (by omega), hw, ht]
    norm_num

/-- Witness for `avg_agg_spec`: the synthetic row of the claim evaluates to
exactly `10`. -/
theorem avg_agg_spec_witness :
    (⟨0, none, none, none, none, 50, 10, 500, 50, none, 0, 0, 0, 0, 0⟩ :
        DayRec).sum = 50 ∧
    aggValue AggKind.avg
        ⟨0, none, none, none, none, 50, 10, 500, 50, none, 0, 0, 0, 0, 0⟩ =
      some 10 :=
  ⟨rfl, avg_agg_spec.2.2
    ⟨0, none, none, none, none, 50, 10, 500, 50, none, 0, 0, 0, 0, 0⟩
    rfl rfl rfl rfl⟩

/-- Counterexample to claim C2 as stated: on a row with
`x_component_sum = 1`, `y_component_sum = 0` and `count = 10 > 0` the
`vecdir` aggregate is null, not `90.0` — the numeric branch requires both
component sums to be non-zero (`elif _rec[10] and _rec[11]`). -/
theorem vecdir_east_counterexample :
    aggValue AggKind.vecdir recEast = none ∧
    aggValue AggKind.vecdir recEast ≠ some 90 := by
  have h : aggValue AggKind.vecdir recEast = none := by
    simp only [aggValue, recEast]
    norm_num
  exact ⟨h, by rw [h]; simp⟩

/-- Claim C2 (amended): for a day-summary row with `x_component_sum = 1`,
`y_component_sum = 0` and `count > 0`, the `vecdir` aggregate is null (the
`90° − atan2` formula is only applied when both component sums are
non-zero). -/
theorem vecdir_east_null (rec : DayRec) (hx : rec.xsum = 1)
    (hy : rec.ysum = 0) (hc : 0 < rec.count) :
    aggValue AggKind.vecdir rec = none := by
  simp only [aggValue, hx, hy]
  norm_num

/-- Witness for `vecdir_east_null` at the concrete row `recEast`. -/
theorem vecdir_east_null_witness :
    recEast.xsum = 1 ∧ recEast.ysum = 0 ∧ 0 < recEast.count ∧
    aggValue AggKind.vecdir recEast = none :=
  ⟨rfl, rfl, by norm_num [recEast],
    vecdir_east_null recEast rfl rfl (by norm_num [recEast])⟩

/-- Claim C9: `get_ago` clamps a non-existent day-of-month to the last
valid day of the target month, and one month back from 31 March is the
last day of February — 29 in a leap year, else 28. -/
theorem get_ago_clamps :
    (∀ y m d dYears dMonths : ℤ,
        monthLength (get_ago (y, m, d) dYears dMonths).1
            (get_ago (y, m, d) dYears dMonths).2.1 < d →
          (get_ago (y, m, d) dYears dMonths).2.2 =
            monthLength (get_ago (y, m, d) dYears dMonths).1
              (get_ago (y, m, d) dYears dMonths).2.1) ∧
    (∀ y : ℤ,
        get_ago (y, 3, 31) 0 (-1) = (y, 2, if isLeap y then 29 else 28)) := by
  constructor
  · intro y m d dYears dMonths h
    simp only [get_ago] at h ⊢
    rw [if_neg (by omega)]
  · intro y
    have h1 : ((3:ℤ) + -1 - 1) / 12 = 0 := by decide
    have h2 : ((3:ℤ) + -1 - 1) % 12 + 1 = 2 := by decide
    simp only [get_ago, h1, h2, add_zero]
    cases h : isLeap y <;> simp [monthLength, h]

/-- Witness for `get_ago_clamps`: one month before 31 March 2015 the
target month (February 2015) is shorter than 31 days, and the result day
is clamped to that month's length. -/
theorem get_ago_clamps_witness :
    (get_ago (2015, 3, 31) 0 (-1)).2.2 =
      monthLength (get_ago (2015, 3, 31) 0 (-1)).1
        (get_ago (2015, 3, 31) 0 (-1)).2.1 :=
  get_ago_clamps.1 2015 3 31 0 (-1) (by decide)

/-- A concrete day-summary row with both component sums equal to `1`. -/
def recNE : DayRec :=
  ⟨0, none, none, none, none, 0, 10, 0, 0, none, 1, 1, 0, 0, 0⟩

/-- The embedded `math.atan2` always lands in the interval `(-π, π]`. -/
theorem atan2_mem_Ioc (y x : ℝ) : -Real.pi < atan2 y x ∧ atan2 y x ≤ Real.pi := by
  have hpi := Real.pi_pos
  have hub : ∀ t : ℝ, Real.arctan t < Real.pi / 2 := Real.arctan_lt_pi_div_two
  have hlb : ∀ t : ℝ, -(Real.pi / 2) < Real.arctan t := Real.neg_pi_div_two_lt_arctan
  unfold atan2
  split_ifs with h1 h2 h3 h4 h5
  · exact ⟨by linarith [hlb (y / x)], by linarith [hub (y / x)]⟩
  · have hyx : y / x ≤ 0 := div_nonpos_iff.mpr (Or.inl ⟨h2.2, h2.1.le⟩)
    have hmono := Real.arctan_strictMono.monotone hyx
    rw [Real.arctan_zero] at hmono
    exact ⟨by linarith [hlb (y / x)], by linarith⟩
  · have hyx : 0 < y / x := div_pos_iff.mpr (Or.inr ⟨h3.2, h3.1⟩)
    have hmono := Real.arctan_strictMono hyx
    rw [Real.arctan_zero] at hmono
    exact ⟨by linarith, by linarith [hub (y / x)]⟩
  · exact ⟨by linarith, by linarith⟩
  · exact ⟨by linarith, by linarith⟩
  · exact ⟨by linarith, by linarith⟩

/-- Claim C3: whenever the `vecdir` aggregate of a row whose component sums
are not both zero yields a numeric value, that value lies in `[0, 360)`. -/
theorem vecdir_range (rec : DayRec) (hxy : ¬(rec.xsum = 0 ∧ rec.ysum = 0))
    (v : ℝ) (hv : aggValue AggKind.vecdir rec = some v) :
    0 ≤ v ∧ v < 360 := by
  simp only [aggValue] at hv
  rw [if_neg hxy] at hv
  by_cases hb : rec.xsum ≠ 0 ∧ rec.ysum ≠ 0
  · rw [if_pos hb] at hv
    have ha := atan2_mem_Ioc rec.ysum rec.xsum
    have hpi := Real.pi_pos
    set a := atan2 rec.ysum rec.xsum with hadef
    have hc : (0:ℝ) < 180 / Real.pi := by positivity
    have hub : a * (180 / Real.pi) ≤ 180 := by
      have h := mul_le_mul_of_nonneg_right ha.2 hc.le
      have hppi : Real.pi * (180 / Real.pi) = 180 := by
        field_simp
      linarith [h, hppi.le]
    have hlb : -180 < a * (180 / Real.pi) := by
      have h := mul_lt_mul_of_pos_right ha.1 hc
      have hppi : -Real.pi * (180 / Real.pi) = -180 := by
        field_simp
        ring
      linarith [h]
    have hz : (let deg := 90 - a * (180 / Real.pi)
               if 0 ≤ deg then deg else deg + 360) =
        if 0 ≤ 90 - a * (180 / Real.pi) then 90 - a * (180 / Real.pi)
        else 90 - a * (180 / Real.pi) + 360 := rfl
    rw [hz, Option.some_inj] at hv
    by_cases hd : 0 ≤ 90 - a * (180 / Real.pi)
    · rw [if_pos hd] at hv
      subst hv
      exact ⟨hd, by linarith⟩
    · rw [if_neg hd] at hv
      subst hv
      push_neg at hd
      exact ⟨by linarith, by linarith⟩
  · rw [if_neg hb] at hv
    exact absurd hv (by simp)

/-- Witness for `vecdir_range`: a row with `xsum = ysum = 1` produces the
value `45`, which lies in `[0, 360)`. -/
theorem vecdir_range_witness : (0:ℝ) ≤ 45 ∧ (45:ℝ) < 360 := by
  have hpi := Real.pi_pos
  have hat : atan2 (1:ℝ) 1 = Real.pi / 4 := by
    unfold atan2
    rw [if_pos one_pos]
    norm_num [Real.arctan_one]
  have hdeg : (90:ℝ) - atan2 1 1 * (180 / Real.pi) = 45 := by
    rw [hat]
    field_simp
    ring
  refine vecdir_range recNE (by norm_num [recNE]) 45 ?_
  simp only [aggValue, recNE]
  rw [if_neg (by norm_num), if_pos (by norm_num)]
  have hz : (let deg := (90:ℝ) - atan2 1 1 * (180 / Real.pi)
             if 0 ≤ deg then deg else deg + 360) =
      if 0 ≤ (90:ℝ) - atan2 1 1 * (180 / Real.pi) then
        (90:ℝ) - atan2 1 1 * (180 / Real.pi)
      else (90:ℝ) - atan2 1 1 * (180 / Real.pi) + 360 := rfl
  rw [hz, hdeg, if_pos (by norm_num)]

/-- A simple strictly increasing speed cutoff list used as witness data. -/
def slLin : Fin 7 → ℚ := fun i => (i.val : ℚ)

/-- Claim C5: boundary equality routes downward in the speed classifier.
A sample whose speed equals `calm_limit` exactly is calm (the comparison is
the inclusive `<=`), and a sample whose speed equals the band cutoff
`speed_list[k]` (`k ∈ 1..5`, above the calm limit) lands in band `k`, not
band `k+1` (the band comparisons are the strict `>`).  The cutoff list is
assumed monotone with `speed_list[0] = 0` and strictly increasing at `k`,
as produced by a monotonically increasing `speedfactor`. -/
theorem boundary_routing (calmLimit : ℚ) (sl : Fin 7 → ℚ) (petals : ℕ)
    (d : ℚ) (k : Fin 7) (hk1 : 1 ≤ k.val) (hk5 : k.val ≤ 5)
    (hmono : Monotone sl) (hz : sl 0 = 0)
    (hprev : sl ⟨k.val - 1, by omega⟩ < sl k) (hcl : calmLimit < sl k) :
    classify calmLimit sl petals (some calmLimit, some d) = none ∧
    classify calmLimit sl petals (some (sl k), some d) =
      some (k.val, sectorOf petals d) := by
  constructor
  · simp [classify]
  · fin_cases k
    · exact absurd hk1 (by norm_num)
    · show classify calmLimit sl petals (some (sl 1), some d) =
        some (1, sectorOf petals d)
      have hcl' : calmLimit < sl 1 := hcl
      have hc' : ¬ (sl 1 ≤ calmLimit) := not_le.mpr hcl'
      have h5 : ¬ (sl 5 < sl 1) := not_lt.mpr (hmono (by decide : (1:Fin 7) ≤ 5))
      have h4 : ¬ (sl 4 < sl 1) := not_lt.mpr (hmono (by decide : (1:Fin 7) ≤ 4))
      have h3 : ¬ (sl 3 < sl 1) := not_lt.mpr (hmono (by decide : (1:Fin 7) ≤ 3))
      have h2 : ¬ (sl 2 < sl 1) := not_lt.mpr (hmono (by decide : (1:Fin 7) ≤ 2))
      have h1 : ¬ (sl 1 < sl 1) := lt_irrefl _
      have h0 : (0:ℚ) < sl 1 := by
        have h01 : sl 0 < sl 1 := hprev
        rwa [hz] at h01
      simp only [classify]
      rw [if_neg hc', if_neg h5, if_neg h4, if_neg h3, if_neg h2, if_neg h1,
        if_pos h0]
    · show classify calmLimit sl petals (some (sl 2), some d) =
        some (2, sectorOf petals d)
      have hcl' : calmLimit < sl 2 := hcl
      have hc' : ¬ (sl 2 ≤ calmLimit) := not_le.mpr hcl'
      have h5 : ¬ (sl 5 < sl 2) := not_lt.mpr (hmono (by decide : (2:Fin 7) ≤ 5))
      have h4 : ¬ (sl 4 < sl 2) := not_lt.mpr (hmono (by decide : (2:Fin 7) ≤ 4))
      have h3 : ¬ (sl 3 < sl 2) := not_lt.mpr (hmono (by decide : (2:Fin 7) ≤ 3))
      have h2 : ¬ (sl 2 < sl 2) := lt_irrefl _
      have h1 : sl 1 < sl 2 := hprev
      simp only [classify]
      rw [if_neg hc', if_neg h5, if_neg h4, if_neg h3, if_neg h2, if_pos h1]
    · show classify calmLimit sl petals (some (sl 3), some d) =
        some (3, sectorOf petals d)
      have hcl' : calmLimit < sl 3 := hcl
      have hc' : ¬ (sl 3 ≤ calmLimit) := not_le.mpr hcl'
      have h5 : ¬ (sl 5 < sl 3) := not_lt.mpr (hmono (by decide : (3:Fin 7) ≤ 5))
      have h4 : ¬ (sl 4 < sl 3) := not_lt.mpr (hmono (by decide : (3:Fin 7) ≤ 4))
      have h3 : ¬ (sl 3 < sl 3) := lt_irrefl _
      have h2 : sl 2 < sl 3 := hprev
      simp only [classify]
      rw [if_neg hc', if_neg h5, if_neg h4, if_neg h3, if_pos h2]
    · show classify calmLimit sl petals (some (sl 4), some d) =
        some (4, sectorOf petals d)
      have hcl' : calmLimit < sl 4 := hcl
      have hc' : ¬ (sl 4 ≤ calmLimit) := not_le.mpr hcl'
      have h5 : ¬ (sl 5 < sl 4) := not_lt.mpr (hmono (by decide : (4:Fin 7) ≤ 5))
      have h4 : ¬ (sl 4 < sl 4) := lt_irrefl _
      have h3 : sl 3 < sl 4 := hprev
      simp only [classify]
      rw [if_neg hc', if_neg h5, if_neg h4, if_pos h3]
    · show classify calmLimit sl petals (some (sl 5), some d) =
        some (5, sectorOf petals d)
      have hcl' : calmLimit < sl 5 := hcl
      have hc' : ¬ (sl 5 ≤ calmLimit) := not_le.mpr hcl'
      have h5 : ¬ (sl 5 < sl 5) := lt_irrefl _
      have h4 : sl 4 < sl 5 := hprev
      simp only [classify]
      rw [if_neg hc', if_neg h5, if_pos h4]
    · exact absurd hk5 (by norm_num)

/-- Witness for `boundary_routing` with the cutoffs `0,1,2,3,4,5,6`,
`calm_limit = 0`, direction `0`, sixteen petals and band `k = 4`. -/
theorem boundary_routing_witness :
    classify 0 slLin 16 (some 0, some 0) = none ∧
    classify 0 slLin 16 (some (slLin 4), some 0) =
      some ((4:Fin 7).val, sectorOf 16 0) :=
  boundary_routing 0 slLin 16 0 4 (by decide) (by decide)
    (fun i j hij => by
      simp only [slLin]
      exact_mod_cast Fin.le_def.mp hij)
    (by simp [slLin])
    (by decide)
    (by decide)

/-- With a single petal every direction lands in sector 0. -/
theorem sectorOf_one (d : ℚ) : sectorOf 1 d = 0 := by
  have h1 : (pytrunc ((d + 11.25) / 22.5)) % ((1:ℕ):ℤ) = 0 := by
    simp only [Nat.cast_one]
    omega
  unfold sectorOf
  rw [h1]
  rfl

/-- A sample of speed `5`, direction `0` against the cutoffs `0..6` with
calm limit `0` and one petal goes to band 5, sector 0. -/
theorem classify_speed5 :
    classify 0 slLin 1 ((some 5 : Option ℚ), (some 0 : Option ℚ)) =
      some (5, 0) := by
  simp only [classify, sectorOf_one]
  rw [if_neg (by decide : ¬ ((5:ℚ) ≤ 0)), if_neg (by decide : ¬ (slLin 5 < 5)),
    if_pos (by decide : slLin 4 < 5)]

/-- The percent factor of the one-sample list is `100`. -/
theorem pcentFactor_single :
    pcentFactor [((some 5 : Option ℚ), (some 0 : Option ℚ))] = 100 := by
  simp [pcentFactor]

/-- The one sample of the concrete scenario is counted in `wind_bin[5][0]`
and nowhere else, so its rounded cell percentage is `100`. -/
theorem roundedBin_single :
    roundedBin 0 slLin 1 1 [(some 5, some 0)] 5 0 = 100 := by
  have hw : windBinCount 0 slLin 1 [(some 5, some 0)] 5 0 = 1 := by
    simp [windBinCount, List.countP_cons, classify_speed5]
  rw [roundedBin, hw, pcentFactor_single]
  norm_num [pyround, roundHalfEven]

/-- Counterexample to claim C7 as stated: a single sample with speed `5`
and direction `0` (one petal, calm limit `0`, precision `1`) gives a
largest sector percentage of `100`, yet `max_y_axis` is `110`, not the
smallest multiple of 10 that is `≥ 100` (which is `100` itself): the code
computes `10 * (1 + int(max_dir_percent/10))`, which skips to the next
multiple when the percentage is itself a multiple of 10. -/
theorem max_y_axis_counterexample :
    maxDirPercent 0 slLin 1 1 [(some 5, some 0)] = 100 ∧
    maxYAxis (maxDirPercent 0 slLin 1 1 [(some 5, some 0)]) = 110 ∧
    ¬ ((∃ m : ℤ, maxYAxis (maxDirPercent 0 slLin 1 1 [(some 5, some 0)]) = 10 * m) ∧
        maxDirPercent 0 slLin 1 1 [(some 5, some 0)] ≤
          maxYAxis (maxDirPercent 0 slLin 1 1 [(some 5, some 0)]) ∧
        ∀ y : ℚ, (∃ m : ℤ, y = 10 * m) →
          maxDirPercent 0 slLin 1 1 [(some 5, some 0)] ≤ y →
            maxYAxis (maxDirPercent 0 slLin 1 1 [(some 5, some 0)]) ≤ y) := by
  have hd : dirBinCount 0 slLin 1 [(some 5, some 0)] 0 = 1 := by
    simp [dirBinCount, windBinCount, List.countP_cons, classify_speed5,
      Finset.sum_range_succ]
  have hmax : maxDirBin 0 slLin 1 [(some 5, some 0)] = 1 := by
    simp [maxDirBin, List.range_succ, hd]
  have hmdp : maxDirPercent 0 slLin 1 1 [(some 5, some 0)] = 100 := by
    rw [maxDirPercent, pcentFactor_single, hmax]
    norm_num [pyround, roundHalfEven]
  have h110 : maxYAxis (100:ℚ) = 110 := by
    norm_num [maxYAxis, pytrunc]
  refine ⟨hmdp, by rw [hmdp, h110], ?_⟩
  rintro ⟨-, -, hmin⟩
  have h := hmin 100 ⟨10, by norm_num⟩ (by rw [hmdp])
  rw [hmdp, h110] at h
  norm_num at h

/-- Claim C7 (amended): `max_y_axis` is the smallest multiple of 10 that is
strictly greater than the largest sector percentage (for a non-negative
percentage). -/
theorem max_y_axis_least_strict (mdp : ℚ) (h : 0 ≤ mdp) :
    mdp < maxYAxis mdp ∧ (∃ m : ℤ, maxYAxis mdp = 10 * m) ∧
    ∀ y : ℚ, (∃ k : ℤ, y = 10 * k) → mdp < y → maxYAxis mdp ≤ y := by
  have hten : (0:ℚ) < 10 := by norm_num
  have htr : pytrunc (mdp / 10) = ⌊mdp / 10⌋ := if_pos (by positivity)
  have hfl := Int.lt_floor_add_one (mdp / 10)
  have hdm : mdp / 10 * 10 = mdp := div_mul_cancel₀ mdp (by norm_num)
  refine ⟨?_, ⟨1 + ⌊mdp / 10⌋, by rw [maxYAxis, htr]; push_cast; ring⟩, ?_⟩
  · rw [maxYAxis, htr]
    nlinarith [hfl]
  · rintro y ⟨k, rfl⟩ hy
    rw [maxYAxis, htr]
    have hk : ⌊mdp / 10⌋ < k := by
      apply Int.floor_lt.mpr
      apply (div_lt_iff hten).mpr
      linarith
    have hk1 : (⌊mdp / 10⌋ : ℚ) + 1 ≤ (k : ℚ) := by
      exact_mod_cast Int.add_one_le_iff.mpr hk
    linarith

/-- Witness for `max_y_axis_least_strict` at the percentage `42`: the
axis maximum `50` is the least multiple of 10 strictly above it. -/
theorem max_y_axis_least_strict_witness :
    (0:ℚ) ≤ 42 ∧ ((42:ℚ) < maxYAxis 42 ∧ (∃ m : ℤ, maxYAxis 42 = 10 * m) ∧
      ∀ y : ℚ, (∃ k : ℤ, y = 10 * k) → (42:ℚ) < y → maxYAxis 42 ≤ y) :=
  ⟨by norm_num, max_y_axis_least_strict 42 (by norm_num)⟩

/-- Claim C8, evaluated at the failing input (one sample of speed `5` and
direction `0`, calm limit `0`, cutoffs `0..6`, one petal, precision `1`,
band 5): the band's overall percentage across all sectors is `100`, but the
legend shows `round(speed_bin[5] * pcent_factor, 1) = 10000` — the band
rows of `speed_bin` already hold percentages (the source comment says
"Values are already %"), and multiplying by `pcent_factor = 100/n` again
double-scales them whenever the sample count differs from 100. -/
theorem legend_band_percent_failing_input :
    speedBinBand 0 slLin 1 1 [(some 5, some 0)] 5 = 100 ∧
    legendBandPercent 0 slLin 1 1 [(some 5, some 0)] 5 = 10000 ∧
    (10000:ℚ) ≠ 100 := by
  have hsb : speedBinBand 0 slLin 1 1 [(some 5, some 0)] 5 = 100 := by
    simp [speedBinBand, Finset.sum_range_succ, roundedBin_single]
  refine ⟨hsb, ?_, by norm_num⟩
  rw [legendBandPercent, hsb, pcentFactor_single]
  norm_num [pyround, roundHalfEven]

/-- The sector index is always a valid petal index. -/
theorem sectorOf_lt (petals : ℕ) (hpet : 0 < petals) (d : ℚ) :
    sectorOf petals d < petals := by
  unfold sectorOf
  have hp : (0:ℤ) < (petals:ℤ) := by exact_mod_cast hpet
  have h1 : 0 ≤ pytrunc ((d + 11.25) / 22.5) % (petals:ℤ) :=
    Int.emod_nonneg _ (by omega)
  have h2 : pytrunc ((d + 11.25) / 22.5) % (petals:ℤ) < (petals:ℤ) :=
    Int.emod_lt_of_pos _ hp
  omega

/-- A classified sample lands in one of the seven bands and (for a positive
petal count) in a valid sector. -/
theorem classify_some_bounds {cl : ℚ} {sl : Fin 7 → ℚ} {petals : ℕ}
    {x : Sample} {b s : ℕ}
    (h : classify cl sl petals x = some (b, s)) :
    b < 7 ∧ (0 < petals → s < petals) := by
  rcases x with ⟨osp, od⟩
  rcases osp with _ | sp
  · exact absurd h (by simp [classify])
  rcases od with _ | d
  · exact absurd h (by simp [classify])
  simp only [classify] at h
  split_ifs at h <;>
    first
      | exact Option.noConfusion h
      | (simp only [Option.some_inj, Prod.mk.injEq] at h
         obtain ⟨rfl, rfl⟩ := h
         exact ⟨by norm_num, fun hp => sectorOf_lt petals hp d⟩)

/-- With a non-negative calm limit, band 0 of `wind_bin` is never hit: a
sample above the calm limit has strictly positive speed. -/
theorem windBinCount_band0 (cl : ℚ) (sl : Fin 7 → ℚ) (petals : ℕ)
    (samples : List Sample) (s : ℕ) (hcl : 0 ≤ cl) :
    windBinCount cl sl petals samples 0 s = 0 := by
  rw [windBinCount, List.countP_eq_zero]
  intro x _
  simp only [decide_eq_true_eq]
  rcases x with ⟨osp, od⟩
  rcases osp with _ | sp
  · simp [classify]
  rcases od with _ | d
  · simp [classify]
  simp only [classify]
  split_ifs with h1 h2 h3 h4 h5 h6 h7
  · simp
  · simp
  · simp
  · simp
  · simp
  · simp
  · simp
  · exfalso
    have hs1 : cl < sp := not_le.mp h1
    have hs2 : sp ≤ 0 := not_lt.mp h7
    linarith

/-- Each sample contributes exactly one count: to a single `wind_bin` cell
or to the calm bin. -/
theorem classify_indicator (cl : ℚ) (sl : Fin 7 → ℚ) (petals : ℕ)
    (hpet : 0 < petals) (x : Sample) :
    (Finset.range 7).sum (fun b => (Finset.range petals).sum (fun s =>
        if classify cl sl petals x = some (b, s) then 1 else 0)) +
      (if classify cl sl petals x = none then 1 else 0) = 1 := by
  cases hx : classify cl sl petals x with
  | none => simp [hx]
  | some bs =>
    obtain ⟨b0, s0⟩ := bs
    obtain ⟨hb7, hslt⟩ := classify_some_bounds hx
    have hs : s0 < petals := hslt hpet
    simp only [hx, Option.some_inj, Prod.mk.injEq, reduceCtorEq, if_false]
    have hrow : ∀ b, ((Finset.range petals).sum (fun s =>
        if b0 = b ∧ s0 = s then (1:ℕ) else 0)) = if b0 = b then 1 else 0 := by
      intro b
      by_cases hb : b0 = b
      · simp only [hb, true_and, if_true]
        rw [Finset.sum_ite_eq]
        simp [Finset.mem_range, hs]
      · simp [hb]
    rw [Finset.sum_congr rfl (fun b _ => hrow b), Finset.sum_ite_eq]
    simp [Finset.mem_range, hb7]

/-- Partition law of the binning loop: the `wind_bin` cell counts and the
calm count add up to the number of samples. -/
theorem classify_partition (cl : ℚ) (sl : Fin 7 → ℚ) (petals : ℕ)
    (hpet : 0 < petals) (samples : List Sample) :
    (Finset.range 7).sum (fun b => (Finset.range petals).sum (fun s =>
        windBinCount cl sl petals samples b s)) +
      calmCount cl sl petals samples = samples.length := by
  induction samples with
  | nil => simp [windBinCount, calmCount]
  | cons x xs ih =>
    simp only [windBinCount, calmCount, List.countP_cons, List.length_cons,
      decide_eq_true_eq] at ih ⊢
    have hrow : ∀ b, ((Finset.range petals).sum (fun s =>
        xs.countP (fun y => decide (classify cl sl petals y = some (b, s))) +
          if classify cl sl petals x = some (b, s) then 1 else 0)) =
        ((Finset.range petals).sum (fun s =>
          xs.countP (fun y => decide (classify cl sl petals y = some (b, s))))) +
        ((Finset.range petals).sum (fun s =>
          if classify cl sl petals x = some (b, s) then 1 else 0)) := by
      intro b
      rw [Finset.sum_add_distrib]
    rw [Finset.sum_congr rfl (fun b _ => hrow b), Finset.sum_add_distrib]
    have hind := classify_indicator cl sl petals hpet x
    omega

/-- Round-half-even moves a rational by at most one half. -/
theorem roundHalfEven_err (q : ℚ) : |(roundHalfEven q : ℚ) - q| ≤ 1/2 := by
  have hfl : (⌊q⌋ : ℚ) ≤ q := Int.floor_le q
  have hfl2 : q < ⌊q⌋ + 1 := Int.lt_floor_add_one q
  unfold roundHalfEven
  split_ifs with h1 h2 h3
  · rw [abs_sub_comm, abs_of_nonneg (by linarith)]
    linarith
  · have hc : ((⌊q⌋ + 1 : ℤ) : ℚ) = (⌊q⌋ : ℚ) + 1 := by push_cast; ring
    rw [hc, abs_of_nonneg (by linarith)]
    linarith
  · rw [abs_sub_comm, abs_of_nonneg (by linarith)]
    linarith
  · have hc : ((⌊q⌋ + 1 : ℤ) : ℚ) = (⌊q⌋ : ℚ) + 1 := by push_cast; ring
    rw [hc, abs_of_nonneg (by linarith)]
    linarith

/-- Rounding to `p` decimal places moves a rational by at most
half of one unit in the last place. -/
theorem pyround_err (x : ℚ) (p : ℕ) :
    |pyround x p - x| ≤ 1 / (2 * 10 ^ p) := by
  have h10 : (0:ℚ) < 10 ^ p := by positivity
  have herr := roundHalfEven_err (x * 10 ^ p)
  unfold pyround
  have hsub : (roundHalfEven (x * 10 ^ p) : ℚ) / 10 ^ p - x =
      ((roundHalfEven (x * 10 ^ p) : ℚ) - x * 10 ^ p) / 10 ^ p := by
    field_simp
    ring
  rw [hsub, abs_div, abs_of_pos h10, div_le_div_iff h10 (by positivity)]
  nlinarith [herr, h10]

/-- Rounding zero gives zero. -/
theorem pyround_zero (p : ℕ) : pyround 0 p = 0 := by
  norm_num [pyround, roundHalfEven]

/-- Under a non-negative calm limit the whole row 0 of the percentage table
is zero. -/
theorem roundedBin_band0 (cl : ℚ) (sl : Fin 7 → ℚ) (petals p : ℕ)
    (samples : List Sample) (s : ℕ) (hcl : 0 ≤ cl) :
    roundedBin cl sl petals p samples 0 s = 0 := by
  rw [roundedBin, windBinCount_band0 cl sl petals samples s hcl]
  norm_num [pyround_zero]

/-- Claim C1: for every non-empty sample set (with a non-negative calm
limit and at least one petal, as in every valid configuration) the sum of
all `(band, sector)` percentage entries of `wind_bin` plus the calm
percentage equals 100 within the rounding tolerance
`petals * 7 * 10^-precision`. -/
theorem windrose_percentage_law (cl : ℚ) (sl : Fin 7 → ℚ) (petals p : ℕ)
    (samples : List Sample) (hne : samples ≠ []) (hcl : 0 ≤ cl)
    (hpet : 0 < petals) :
    |(Finset.range 7).sum (fun b => (Finset.range petals).sum (fun s =>
        roundedBin cl sl petals p samples b s)) +
      calmPercent cl sl petals p samples - 100| ≤
    (petals : ℚ) * 7 / 10 ^ p := by
  have hn0 : 0 < samples.length := List.length_pos.mpr hne
  have hnq : (0:ℚ) < (samples.length : ℚ) := by exact_mod_cast hn0
  have h10 : (0:ℚ) < 10 ^ p := by positivity
  have hFn : pcentFactor samples * (samples.length : ℚ) = 100 := by
    rw [pcentFactor]
    field_simp
  have hcp : calmPercent cl sl petals p samples =
      pyround ((calmCount cl sl petals samples : ℚ) * pcentFactor samples) p := by
    rw [calmPercent, speedBinZero]
    rw [Finset.sum_congr rfl
      (fun s _ => roundedBin_band0 cl sl petals p samples s hcl)]
    rw [Finset.sum_const_zero, add_zero]
  have hpart := classify_partition cl sl petals hpet samples
  have hpartq : ((Finset.range 7).sum (fun b => (Finset.range petals).sum
      (fun s => (windBinCount cl sl petals samples b s : ℚ)))) +
      (calmCount cl sl petals samples : ℚ) = (samples.length : ℚ) := by
    exact_mod_cast hpart
  have hexact : (Finset.range 7).sum (fun b => (Finset.range petals).sum
      (fun s => pcentFactor samples *
        (windBinCount cl sl petals samples b s : ℚ))) +
      (calmCount cl sl petals samples : ℚ) * pcentFactor samples = 100 := by
    have h1 : (Finset.range 7).sum (fun b => (Finset.range petals).sum
        (fun s => pcentFactor samples *
          (windBinCount cl sl petals samples b s : ℚ))) =
        pcentFactor samples * (Finset.range 7).sum (fun b =>
          (Finset.range petals).sum
            (fun s => (windBinCount cl sl petals samples b s : ℚ))) := by
      rw [Finset.mul_sum]
      exact Finset.sum_congr rfl (fun b _ => by rw [Finset.mul_sum])
    rw [h1]
    calc pcentFactor samples * (Finset.range 7).sum (fun b =>
          (Finset.range petals).sum
            (fun s => (windBinCount cl sl petals samples b s : ℚ))) +
        (calmCount cl sl petals samples : ℚ) * pcentFactor samples
        = pcentFactor samples * ((Finset.range 7).sum (fun b =>
            (Finset.range petals).sum
              (fun s => (windBinCount cl sl petals samples b s : ℚ))) +
          (calmCount cl sl petals samples : ℚ)) := by ring
      _ = pcentFactor samples * (samples.length : ℚ) := by rw [hpartq]
      _ = 100 := hFn
  have hsub : (Finset.range 7).sum (fun b => (Finset.range petals).sum
      (fun s => roundedBin cl sl petals p samples b s -
        pcentFactor samples * (windBinCount cl sl petals samples b s : ℚ)))
      = (Finset.range 7).sum (fun b => (Finset.range petals).sum (fun s =>
          roundedBin cl sl petals p samples b s)) -
        (Finset.range 7).sum (fun b => (Finset.range petals).sum
          (fun s => pcentFactor samples *
            (windBinCount cl sl petals samples b s : ℚ))) := by
    rw [← Finset.sum_sub_distrib]
    exact Finset.sum_congr rfl (fun b _ => by rw [Finset.sum_sub_distrib])
  have hD : (Finset.range 7).sum (fun b => (Finset.range petals).sum (fun s =>
        roundedBin cl sl petals p samples b s)) +
      calmPercent cl sl petals p samples - 100 =
      (Finset.range 7).sum (fun b => (Finset.range petals).sum
        (fun s => roundedBin cl sl petals p samples b s -
          pcentFactor samples * (windBinCount cl sl petals samples b s : ℚ))) +
      (pyround ((calmCount cl sl petals samples : ℚ) * pcentFactor samples) p -
        (calmCount cl sl petals samples : ℚ) * pcentFactor samples) := by
    rw [hcp, hsub]
    linear_combination hexact
  have hbound : ∀ b ∈ Finset.range 7, ∀ s ∈ Finset.range petals,
      |roundedBin cl sl petals p samples b s -
        pcentFactor samples * (windBinCount cl sl petals samples b s : ℚ)| ≤
      1 / (2 * 10 ^ p) := by
    intro b _ s _
    rw [roundedBin]
    exact pyround_err _ p
  have habs : |(Finset.range 7).sum (fun b => (Finset.range petals).sum
      (fun s => roundedBin cl sl petals p samples b s -
        pcentFactor samples * (windBinCount cl sl petals samples b s : ℚ)))| ≤
      7 * ((petals : ℚ) * (1 / (2 * 10 ^ p))) := by
    refine le_trans (Finset.abs_sum_le_sum_abs _ _) ?_
    have hrow : ∀ b ∈ Finset.range 7,
        |(Finset.range petals).sum (fun s =>
          roundedBin cl sl petals p samples b s -
            pcentFactor samples *
              (windBinCount cl sl petals samples b s : ℚ))| ≤
        (petals : ℚ) * (1 / (2 * 10 ^ p)) := by
      intro b hb
      refine le_trans (Finset.abs_sum_le_sum_abs _ _) ?_
      refine le_trans (Finset.sum_le_sum (hbound b hb)) ?_
      rw [Finset.sum_const, Finset.card_range, nsmul_eq_mul]
    refine le_trans (Finset.sum_le_sum hrow) ?_
    rw [Finset.sum_const, Finset.card_range, nsmul_eq_mul]
    norm_num
  have hcalm : |pyround ((calmCount cl sl petals samples : ℚ) *
      pcentFactor samples) p -
      (calmCount cl sl petals samples : ℚ) * pcentFactor samples| ≤
      1 / (2 * 10 ^ p) := pyround_err _ p
  rw [hD]
  refine le_trans (abs_add _ _) ?_
  refine le_trans (add_le_add habs hcalm) ?_
  have hp1 : (1:ℚ) ≤ (petals : ℚ) := by exact_mod_cast hpet
  have key : 7 * ((petals:ℚ) * (1 / (2 * 10 ^ p))) + 1 / (2 * 10 ^ p) =
      (7 * (petals:ℚ) + 1) / (2 * 10 ^ p) := by
    field_simp
  rw [key, div_le_div_iff (by positivity) h10]
  nlinarith [h10, hp1, mul_nonneg h10.le
    (show (0:ℚ) ≤ 7 * (petals:ℚ) - 1 by linarith)]

/-- Witness for `windrose_percentage_law` on the one-sample list with calm
limit `0`, cutoffs `0..6`, one petal and precision `1`. -/
theorem windrose_percentage_law_witness :
    ([((some 5 : Option ℚ), (some 0 : Option ℚ))] : List Sample) ≠ [] ∧
    (0:ℚ) ≤ 0 ∧ 0 < 1 ∧
    |(Finset.range 7).sum (fun b => (Finset.range 1).sum (fun s =>
        roundedBin 0 slLin 1 1 [(some 5, some 0)] b s)) +
      calmPercent 0 slLin 1 1 [(some 5, some 0)] - 100| ≤
    ((1:ℕ) : ℚ) * 7 / 10 ^ 1 :=
  ⟨by simp, le_refl 0, by norm_num,
    windrose_percentage_law 0 slLin 1 1 [(some 5, some 0)]
      (by simp) (le_refl 0) (by norm_num)⟩

end WeewxHighcharts
